import Mathlib

/-!
Verification of the long-running job orchestration subsystem of the
GeminiVibeCodeReviewer backend (`app/services/optimization_service.py`,
`app/services/training_service.py`, and the endpoint layer in
`app/api/v1/endpoints/{training,optimization}.py`).

The stateful runner (`optimize_module`) is embedded as a small-step
transition system over one job record.  The `asyncio` event loop is
single-threaded, so code between two `await` points runs atomically; the
only `await` inside the runner loop is the `asyncio.sleep` that simulates
one unit of step work.  The atomic blocks are therefore:
  * `start`  — create the registry record with status "running", pass the
    loop's first cancellation check, and enter the first sleep
    (`optimize_module` lines 41–64; for `max_iterations = 0` the loop body
    never runs and the job is marked completed at once);
  * `wake`   — resume from the sleep of iteration k: apply iteration k's
    updates (progress, best score, history append), then either exit the
    loop and mark the job completed (k+1 = total), or run the cancellation
    check at the top of iteration k+1 (lines 57–88);
  * `cancel` — an external `cancel_optimization` request (lines 156–174);
  * `tick`   — passage of time (only moves the abstract clock).
External ids are fresh UUIDs, so the runner is invoked at most once per id;
the single-job state space below captures the lifecycle of one id (the
registry dictionary treats distinct ids independently: every operation
touches only the entry of the id it is given).

Pure reads (`get_optimization_progress`, `get_optimization_results`, the
training service's reads, and the endpoint wrappers) are embedded as pure
functions.  Python floats are modelled as rationals; `datetime` values as
rational points of an abstract clock.
-/

namespace VibeJobs

/-- Status strings of `TrainingStatus` / `OptimizationStatus`
(`app/models/{training,optimization}.py`). -/
inductive Status where
  | pending
  | running
  | completed
  | failed
  | cancelled
deriving DecidableEq

/-- Terminal statuses in the sense of the spec's state graph. -/
def Status.isTerminal : Status → Bool
  | .completed => true
  | .failed => true
  | .cancelled => true
  | _ => false

/-- One entry of the optimization job's `history` list
(`optimize_module` lines 76–81). -/
structure HistoryEntry where
  iteration : Nat
  score : ℚ
  bestScore : ℚ
  improvement : ℚ
deriving DecidableEq

/-- The registry record `active_jobs[optimization_id]` as populated by
`optimize_module`.  `totalIterations` is `request.max_iterations` (the
record stores the request; only this field of it is ever read). -/
structure OptJob where
  status : Status
  startTime : ℚ
  totalIterations : Nat
  progress : ℚ
  bestScore : ℚ
  baselineScore : ℚ
  history : List HistoryEntry
  completionTime : Option ℚ
  errorMsg : Option String
deriving DecidableEq

/-- Position of the runner coroutine relative to its `await` points. -/
inductive RunnerPC where
  | notStarted
  | sleeping (k : Nat)
  | exited
deriving DecidableEq

/-- State of the system restricted to one job id: the registry entry for
that id (`none` = id not in `active_jobs`), the runner's position, and an
abstract clock. -/
structure SysState where
  job : Option OptJob
  pc : RunnerPC
  clock : ℚ
deriving DecidableEq

/-- Interleaving events for one job id. -/
inductive Act where
  | start (total : Nat)
  | wake
  | cancel
  | tick (d : ℚ)
deriving DecidableEq

/-- The record written at the top of `optimize_module` (lines 43–51). -/
def initJob (t0 : ℚ) (total : Nat) : OptJob :=
  { status := .running
    startTime := t0
    totalIterations := total
    progress := 0
    bestScore := 0
    baselineScore := 1/2
    history := []
    completionTime := none
    errorMsg := none }

/-- `cancel_optimization` (lines 156–174): unknown id → `False`; status
`"running"` → set status to `"cancelled"`, return `True`; otherwise
`False` with no change.  (`cancel_training`, lines 141–159 of
`training_service.py`, is textually the same operation.) -/
def cancelOp (s : SysState) : SysState × Bool :=
  match s.job with
  | none => (s, false)
  | some j =>
    if j.status = .running then
      ({ s with job := some { j with status := .cancelled } }, true)
    else
      (s, false)

/-- Duration of `await asyncio.sleep(0.5)` in the optimization loop. -/
def sleepDuration : ℚ := 1/2

/-- Iteration k's updates followed by the loop's next boundary
(`optimize_module` lines 57–91): set `progress`, compute the simulated
score, fold it into `best_score`, append the history entry; then if the
loop is finished mark the job `"completed"` and stamp `completion_time`
(this happens even if a cancel request set the status to `"cancelled"`
during the final sleep), else run the cancellation check at the top of
iteration k+1 and either return or enter the next sleep. -/
def wakeStep (s : SysState) (k : Nat) (j : OptJob) : SysState :=
  let t := s.clock + sleepDuration
  let progress : ℚ := ((k : ℚ) + 1) / (j.totalIterations : ℚ)
  let current : ℚ := 1/2 + progress * (2/5) + (k : ℚ) * (1/1000)
  let best : ℚ := if j.bestScore ≤ current then current else j.bestScore
  let entry : HistoryEntry :=
    { iteration := k + 1
      score := current
      bestScore := best
      improvement := best - j.baselineScore }
  let j' : OptJob :=
    { j with progress := progress, bestScore := best
             history := j.history ++ [entry] }
  if k + 1 = j.totalIterations then
    { job := some { j' with status := .completed, completionTime := some t }
      pc := .exited
      clock := t }
  else if j.status = .cancelled then
    { job := some j', pc := .exited, clock := t }
  else
    { job := some j', pc := .sleeping (k + 1), clock := t }

/-- One atomic step of the interleaved system. -/
def applyAct (s : SysState) (a : Act) : SysState :=
  match a with
  | .tick d => { s with clock := s.clock + d }
  | .cancel => (cancelOp s).1
  | .start total =>
    match s.job with
    | some _ => s
    | none =>
      if total = 0 then
        { job := some { initJob s.clock total with
                          status := .completed
                          completionTime := some s.clock }
          pc := .exited
          clock := s.clock }
      else
        { job := some (initJob s.clock total), pc := .sleeping 0, clock := s.clock }
  | .wake =>
    match s.pc, s.job with
    | .sleeping k, some j => wakeStep s k j
    | _, _ => s

/-- The state of an id before its job is submitted. -/
def initState : SysState :=
  { job := none, pc := .notStarted, clock := 0 }

/-- Execute a sequence of events from the initial state. -/
def run (acts : List Act) : SysState :=
  acts.foldl applyAct initState

/-- States the system can actually produce for one job id. -/
def Reachable (s : SysState) : Prop :=
  ∃ acts : List Act, run acts = s

/-- The history's `iteration` fields are exactly `1, 2, ..., length`:
strictly increasing with no gaps, starting at 1. -/
def goodHistory (h : List HistoryEntry) : Prop :=
  h.map HistoryEntry.iteration = List.range' 1 h.length

/-- The view returned by `get_optimization_progress` (lines 99–133):
`iteration` is defined as `len(history)`, and the score fields are read
from the last history entry (zero defaults when the history is empty). -/
structure OptProgress where
  status : Status
  iteration : Nat
  totalIterations : Nat
  currentScore : ℚ
  bestScore : ℚ
  improvement : ℚ
deriving DecidableEq

/-- Embedding of `get_optimization_progress`: `None` for an unknown id. -/
def getOptimizationProgress (job? : Option OptJob) : Option OptProgress :=
  match job? with
  | none => none
  | some j =>
    match j.history.getLast? with
    | some e =>
      some { status := j.status, iteration := j.history.length
             totalIterations := j.totalIterations
             currentScore := e.score, bestScore := e.bestScore
             improvement := e.improvement }
    | none =>
      some { status := j.status, iteration := j.history.length
             totalIterations := j.totalIterations
             currentScore := 0, bestScore := 0, improvement := 0 }

/-- The view returned by `get_optimization_results` (lines 176–208). -/
structure OptResult where
  finalScore : ℚ
  baselineScore : ℚ
  improvementPercentage : ℚ
  optimizationTime : ℚ
  iterationsCompleted : Nat
  history : List HistoryEntry
deriving DecidableEq

/-- Embedding of `get_optimization_results`: `None` for an unknown id or a
job whose status is not `"completed"`; otherwise the aggregated view.  The
Python code indexes `job["completion_time"]` unconditionally; completed
jobs always carry it (an invariant proved below), and the embedding reads
it with a default of the job's start time (elapsed 0) where the source
would raise. -/
def getOptimizationResults (job? : Option OptJob) : Option OptResult :=
  match job? with
  | none => none
  | some j =>
    if j.status = .completed then
      some { finalScore := j.bestScore
             baselineScore := j.baselineScore
             improvementPercentage :=
               (j.bestScore - j.baselineScore) / j.baselineScore * 100
             optimizationTime := (j.completionTime.getD j.startTime) - j.startTime
             iterationsCompleted := j.history.length
             history := j.history }
    else
      none

/-- Summary rows produced by `list_optimization_jobs` (lines 135–154). -/
structure OptJobSummary where
  optimizationId : String
  status : Status
  progress : ℚ
  bestScore : ℚ
deriving DecidableEq

/-- Embedding of `list_optimization_jobs` over a service's registry. -/
def listOptimizationJobs (jobs : List (String × OptJob)) : List OptJobSummary :=
  jobs.map fun p =>
    { optimizationId := p.1, status := p.2.status
      progress := p.2.progress, bestScore := p.2.bestScore }

/-- Registry-level `cancel_optimization` for a multi-id service (used by
the endpoint layer; `cancelOp` above is its restriction to one id). -/
def cancelOptimization (jobs : List (String × OptJob)) (id : String) :
    List (String × OptJob) × Bool :=
  match jobs.lookup id with
  | none => (jobs, false)
  | some j =>
    if j.status = .running then
      (jobs.map fun p => if p.1 = id then (p.1, { j with status := .cancelled }) else p,
       true)
    else
      (jobs, false)

/-- The registry record `active_jobs[training_id]` of the training service
(`train_model`, lines 43–77 of `training_service.py`): the `metrics`
dictionary is flattened into its three keys, with the `.get(key, 0)`
defaults of `get_training_progress` applied at read time. -/
structure TrainJob where
  status : Status
  progress : ℚ
  currentEpoch : Nat
  metricsLoss : ℚ
  metricsAccuracy : ℚ
  metricsEpoch : Nat
  reqEpochs : Int
  reqLearningRate : ℚ
deriving DecidableEq

/-- The view returned by `get_training_progress` (lines 94–118). -/
structure TrainingProgressOut where
  trainingId : String
  status : Status
  epoch : Nat
  totalEpochs : Int
  loss : ℚ
  accuracy : ℚ
  learningRate : ℚ
deriving DecidableEq

/-- Embedding of `get_training_progress`: `None` for an unknown id. -/
def getTrainingProgress (jobs : List (String × TrainJob)) (id : String) :
    Option TrainingProgressOut :=
  match jobs.lookup id with
  | none => none
  | some j =>
    some { trainingId := id, status := j.status, epoch := j.metricsEpoch
           totalEpochs := j.reqEpochs, loss := j.metricsLoss
           accuracy := j.metricsAccuracy, learningRate := j.reqLearningRate }

/-- Summary rows produced by `list_training_jobs` (lines 120–139). -/
structure TrainJobSummary where
  trainingId : String
  status : Status
  progress : ℚ
  currentEpoch : Nat
  totalEpochs : Int
deriving DecidableEq

/-- Embedding of `list_training_jobs`. -/
def listTrainingJobs (jobs : List (String × TrainJob)) : List TrainJobSummary :=
  jobs.map fun p =>
    { trainingId := p.1, status := p.2.status, progress := p.2.progress
      currentEpoch := p.2.currentEpoch, totalEpochs := p.2.reqEpochs }

/-- Registry-level `cancel_training` (lines 141–159). -/
def cancelTraining (jobs : List (String × TrainJob)) (id : String) :
    List (String × TrainJob) × Bool :=
  match jobs.lookup id with
  | none => (jobs, false)
  | some j =>
    if j.status = .running then
      (jobs.map fun p => if p.1 = id then (p.1, { j with status := .cancelled }) else p,
       true)
    else
      (jobs, false)

/-- The fields of `TrainingRequest` (`app/models/training.py`, lines 32–44)
that carry declared numeric constraints; the remaining fields (training
data, flags, metric names) have no constraints and are never read by the
job-orchestration code paths under verification. -/
structure TrainingRequestIn where
  epochs : Int := 10
  batchSize : Int := 32
  learningRate : ℚ := 1/100000
deriving DecidableEq

/-- The pydantic `Field` constraints of `TrainingRequest`: `epochs` in
`ge=1, le=100`, `batch_size` in `ge=1, le=128`, `learning_rate` in
`ge=1e-7, le=1e-2`.  FastAPI validates the request body against these
before the route handler runs. -/
def TrainingRequestIn.validatedOk (r : TrainingRequestIn) : Bool :=
  decide (1 ≤ r.epochs) && decide (r.epochs ≤ 100) &&
  decide (1 ≤ r.batchSize) && decide (r.batchSize ≤ 128) &&
  decide ((1/10000000 : ℚ) ≤ r.learningRate) && decide (r.learningRate ≤ (1/100 : ℚ))

/-- The constrained field of `OptimizationRequest`
(`app/models/optimization.py`, lines 26–37): `max_iterations` in
`ge=1, le=1000`. -/
structure OptimizationRequestIn where
  maxIterations : Int := 100
deriving DecidableEq

/-- The pydantic `Field` constraint of `OptimizationRequest`. -/
def OptimizationRequestIn.validatedOk (r : OptimizationRequestIn) : Bool :=
  decide (1 ≤ r.maxIterations) && decide (r.maxIterations ≤ 1000)

/-- Outcome of an endpoint call: a payload or an HTTP error status. -/
inductive EndpointResult (α : Type) where
  | ok (a : α)
  | httpError (code : Nat)
deriving DecidableEq

/-- Body of the `TrainingResponse` returned by `POST /training/start`. -/
structure TrainingResponseOut where
  trainingId : String
  status : Status
  totalEpochs : Int
deriving DecidableEq

/-- A training service together with the background tasks FastAPI has
scheduled but not yet begun executing. -/
structure TrainingAppState where
  activeJobs : List (String × TrainJob)
  scheduledTasks : List (String × TrainingRequestIn)
deriving DecidableEq

/-- Embedding of `POST /training/start` (`endpoints/training.py`, lines
27–64): FastAPI first validates the body against the declared `Field`
constraints (rejecting with 422 before the handler runs); the handler then
builds a response with status `"pending"` and schedules
`train_model(training_id, request)` as a background task, which runs only
after the response is returned — the registry is untouched here. -/
def startTrainingRoute (app : TrainingAppState) (r : TrainingRequestIn)
    (newId : String) : EndpointResult TrainingResponseOut × TrainingAppState :=
  if r.validatedOk then
    (.ok { trainingId := newId, status := .pending, totalEpochs := r.epochs },
     { app with scheduledTasks := app.scheduledTasks ++ [(newId, r)] })
  else
    (.httpError 422, app)

/-- Body of the `OptimizationResponse` returned by
`POST /optimization/start`. -/
structure OptimizationResponseOut where
  optimizationId : String
  status : Status
  totalIterations : Int
deriving DecidableEq

/-- An optimization service together with its scheduled background tasks. -/
structure OptimizationAppState where
  activeJobs : List (String × OptJob)
  scheduledTasks : List (String × OptimizationRequestIn)
deriving DecidableEq

/-- Embedding of `POST /optimization/start`
(`endpoints/optimization.py`, lines 27–65), mirroring the training route. -/
def startOptimizationRoute (app : OptimizationAppState) (r : OptimizationRequestIn)
    (newId : String) : EndpointResult OptimizationResponseOut × OptimizationAppState :=
  if r.validatedOk then
    (.ok { optimizationId := newId, status := .pending,
           totalIterations := r.maxIterations },
     { app with scheduledTasks := app.scheduledTasks ++ [(newId, r)] })
  else
    (.httpError 422, app)

/-- `get_training_service` (`endpoints/training.py`, lines 23–25): every
call constructs `TrainingService()`, whose `__init__` sets
`active_jobs = {}` — a fresh empty registry per request. -/
def freshTrainingService : List (String × TrainJob) := []

/-- `get_optimization_service` (`endpoints/optimization.py`, lines 23–25):
a fresh `OptimizationService()` with an empty `active_jobs` per request. -/
def freshOptimizationService : List (String × OptJob) := []

/-- `GET /training/status/{id}` (lines 66–88): 404 when the service's
`get_training_progress` returns `None`. -/
def getTrainingStatusEndpoint (id : String) : EndpointResult TrainingProgressOut :=
  match getTrainingProgress freshTrainingService id with
  | none => .httpError 404
  | some p => .ok p

/-- `GET /training/jobs` (lines 90–105). -/
def listTrainingJobsEndpoint : List TrainJobSummary :=
  listTrainingJobs freshTrainingService

/-- `POST /training/cancel/{id}` (lines 107–129): 404 when
`cancel_training` returns `False`. -/
def cancelTrainingEndpoint (id : String) : EndpointResult Unit :=
  if (cancelTraining freshTrainingService id).2 then .ok () else .httpError 404

/-- `GET /optimization/status/{id}` (lines 67–89). -/
def getOptimizationStatusEndpoint (id : String) : EndpointResult OptProgress :=
  match getOptimizationProgress ((freshOptimizationService).lookup id) with
  | none => .httpError 404
  | some p => .ok p

/-- `GET /optimization/jobs` (lines 91–106). -/
def listOptimizationJobsEndpoint : List OptJobSummary :=
  listOptimizationJobs freshOptimizationService

/-- `POST /optimization/cancel/{id}` (lines 108–130). -/
def cancelOptimizationEndpoint (id : String) : EndpointResult Unit :=
  if (cancelOptimization freshOptimizationService id).2 then .ok ()
  else .httpError 404

/-- Sample job id used to instantiate endpoint-level statements. -/
def jobIdA : String := "550e8400-e29b-41d4-a716-446655440000"

/-- Second sample job id. -/
def jobIdB : String := "6ba7b810-9dad-11d1-80b4-00c04fd430c8"

/-- Invariant of the single-job transition system, proved to hold in every
reachable state. -/
def Inv (s : SysState) : Prop :=
  (s.job = none → s.pc = .notStarted) ∧
  (∀ j, s.job = some j →
    j.status ≠ .pending ∧
    j.status ≠ .failed ∧
    goodHistory j.history ∧
    (j.completionTime.isSome ↔ j.status = .completed) ∧
    (j.status = .completed → j.history.length = j.totalIterations) ∧
    s.pc ≠ .notStarted ∧
    (∀ k, s.pc = .sleeping k →
      j.history.length = k ∧ k < j.totalIterations ∧
      (j.status = .running ∨ j.status = .cancelled)) ∧
    (s.pc = .exited → j.status = .completed ∨ j.status = .cancelled))

theorem goodHistory_nil : goodHistory [] := rfl

theorem goodHistory_concat {h : List HistoryEntry} {e : HistoryEntry}
    (hh : goodHistory h) (he : e.iteration = h.length + 1) :
    goodHistory (h ++ [e]) := by
  unfold goodHistory at hh ⊢
  rw [List.map_append, List.length_append, hh, List.map_singleton, he]
  simpa [Nat.add_comm] using (@List.range'_concat 1 1 h.length).symm

theorem inv_initState : Inv initState := by
  constructor
  · intro _; rfl
  · intro j hj; simp [initState] at hj

theorem inv_applyAct (s : SysState) (a : Act) (hs : Inv s) : Inv (applyAct s a) := by
  obtain ⟨hnone, hsome⟩ := hs
  cases a with
  | tick d => exact ⟨fun h => hnone h, fun j hj => hsome j hj⟩
  | cancel =>
    show Inv (cancelOp s).1
    cases hj : s.job with
    | none => simp only [cancelOp, hj]; exact ⟨fun h => hnone h, fun j hj' => hsome j hj'⟩
    | some j =>
      by_cases hr : j.status = .running
      · simp only [cancelOp, hj, hr, if_pos rfl]
        obtain ⟨hp, hf, hgh, hct, hcl, hpc, hsl, hex⟩ := hsome j hj
        refine ⟨fun h => by simp at h, fun j' hj' => ?_⟩
        have hj'' : j' = { j with status := .cancelled } := by
          simpa using hj'.symm
        subst hj''
        refine ⟨by simp, by simp, hgh, ?_, by simp, hpc, ?_, fun _ => Or.inr rfl⟩
        · simp only []
          rw [hr] at hct
          simp at hct
          simp [hct]
        · intro k hk
          obtain ⟨h1, h2, _⟩ := hsl k hk
          exact ⟨h1, h2, Or.inr rfl⟩
      · have : cancelOp s = (s, false) := by
          simp only [cancelOp, hj, hr]
          simp
        rw [this]
        exact ⟨fun h => hnone h, fun j' hj' => hsome j' hj'⟩
  | start total =>
    cases hj : s.job with
    | some j =>
      simp only [applyAct, hj]
      exact ⟨fun h => hnone h, fun j' hj' => hsome j' (by simp [hj] at hj' ⊢; exact hj')⟩
    | none =>
      by_cases ht : total = 0
      · simp only [applyAct, hj, ht, if_pos rfl]
        refine ⟨fun h => by simp at h, fun j' hj' => ?_⟩
        have hj'' : j' = { initJob s.clock 0 with
            status := .completed, completionTime := some s.clock } := by
          simpa [ht] using hj'.symm
        subst hj''
        exact ⟨by simp, by simp, goodHistory_nil, by simp [initJob],
          fun _ => by simp [initJob], by simp, fun k hk => by simp at hk,
          fun _ => Or.inl rfl⟩
      · simp only [applyAct, hj, ht, if_neg ht]
        refine ⟨fun h => by simp at h, fun j' hj' => ?_⟩
        have hj'' : j' = initJob s.clock total := by simpa using hj'.symm
        subst hj''
        refine ⟨by simp [initJob], by simp [initJob], goodHistory_nil,
          by simp [initJob], fun hc => by simp [initJob] at hc, by simp, ?_,
          fun hex => by simp at hex⟩
        intro k hk
        have hk0 : k = 0 := by simpa using hk.symm
        subst hk0
        exact ⟨by simp [initJob], Nat.pos_of_ne_zero ht, Or.inl (by simp [initJob])⟩
  | wake =>
    cases hpc : s.pc with
    | notStarted =>
      cases hj : s.job with
      | none =>
        simp only [applyAct, hpc, hj]
        exact ⟨fun _ => hpc ▸ rfl, fun j' hj' => by rw [hj] at hj'; cases hj'⟩
      | some j => exact absurd hpc (hsome j hj).2.2.2.2.2.1
    | exited =>
      cases hj : s.job with
      | none =>
        simp only [applyAct, hpc, hj]
        exact ⟨fun _ => hnone hj ▸ rfl, fun j' hj' => by rw [hj] at hj'; cases hj'⟩
      | some j =>
        have heq : applyAct s .wake = s := by
          simp only [applyAct, hpc, hj]
        rw [heq]
        exact ⟨hnone, hsome⟩
    | sleeping k =>
      cases hj : s.job with
      | none => exact absurd (hnone hj) (by rw [hpc]; simp)
      | some j =>
        have heq : applyAct s .wake = wakeStep s k j := by
          simp only [applyAct, hpc, hj]
        rw [heq]
        obtain ⟨hp, hf, hgh, hct, hcl, _, hsl, _⟩ := hsome j hj
        obtain ⟨hlen, hk, hst⟩ := hsl k hpc
        have hctn : j.completionTime = none := by
          rcases hst with h | h <;>
            · rw [Option.eq_none_iff_forall_not_mem]
              intro t htt
              have : j.completionTime.isSome := by rw [htt]; rfl
              rw [hct, h] at this
              cases this
        by_cases hdone : k + 1 = j.totalIterations
        · simp only [wakeStep]
          rw [if_pos hdone]
          refine ⟨fun h => by simp at h, fun j' hj' => ?_⟩
          rw [Option.some_inj] at hj'
          subst hj'
          refine ⟨by simp, by simp, ?_, by simp, ?_, by simp, fun k' hk' => by simp at hk',
            fun _ => Or.inl rfl⟩
          · exact goodHistory_concat hgh (by simp [hlen])
          · intro _
            simp [hlen, hdone]
        · by_cases hcan : j.status = .cancelled
          · simp only [wakeStep]
            rw [if_neg hdone, if_pos hcan]
            refine ⟨fun h => by simp at h, fun j' hj' => ?_⟩
            rw [Option.some_inj] at hj'
            subst hj'
            refine ⟨by simp [hcan], by simp [hcan], ?_, ?_, ?_, by simp,
              fun k' hk' => by simp at hk', fun _ => Or.inr hcan⟩
            · exact goodHistory_concat hgh (by simp [hlen])
            · simp [hctn, hcan]
            · intro hc; rw [hcan] at hc; cases hc
          · have hrun : j.status = .running := by
              rcases hst with h | h
              · exact h
              · exact absurd h hcan
            simp only [wakeStep]
            rw [if_neg hdone, if_neg hcan]
            refine ⟨fun h => by simp at h, fun j' hj' => ?_⟩
            rw [Option.some_inj] at hj'
            subst hj'
            refine ⟨by simp [hrun], by simp [hrun], ?_, ?_, ?_, by simp, ?_,
              fun hex => by simp at hex⟩
            · exact goodHistory_concat hgh (by simp [hlen])
            · simp [hctn, hrun]
            · intro hc; rw [hrun] at hc; cases hc
            · intro k' hk'
              have hk'' : k' = k + 1 := by simpa using hk'.symm
              subst hk''
              refine ⟨by simp [hlen], ?_, Or.inl hrun⟩
              exact Nat.lt_of_le_of_ne hk hdone

theorem inv_foldl (acts : List Act) (s : SysState) (hs : Inv s) :
    Inv (acts.foldl applyAct s) := by
  induction acts generalizing s with
  | nil => exact hs
  | cons a rest ih => exact ih (applyAct s a) (inv_applyAct s a hs)

theorem inv_run (acts : List Act) : Inv (run acts) :=
  inv_foldl acts initState inv_initState

theorem inv_reachable {s : SysState} (h : Reachable s) : Inv s := by
  obtain ⟨acts, hacts⟩ := h
  exact hacts ▸ inv_run acts

theorem exited_applyAct (s : SysState) (a : Act) (hs : Inv s)
    (hpc : s.pc = .exited) :
    (applyAct s a).job = s.job ∧ (applyAct s a).pc = .exited := by
  obtain ⟨hnone, hsome⟩ := hs
  cases a with
  | tick d => exact ⟨rfl, hpc ▸ rfl⟩
  | cancel =>
    cases hj : s.job with
    | none =>
      have h : applyAct s .cancel = s := by simp only [applyAct, cancelOp, hj]
      rw [h]; exact ⟨hj, hpc⟩
    | some j =>
      have hterm := (hsome j hj).2.2.2.2.2.2.2 hpc
      have hr : j.status ≠ .running := by
        rcases hterm with h | h <;> rw [h] <;> simp
      have h : applyAct s .cancel = s := by
        simp only [applyAct, cancelOp, hj, if_neg hr]
      rw [h]; exact ⟨hj, hpc⟩
  | start total =>
    cases hj : s.job with
    | none => exact absurd (hnone hj) (by rw [hpc]; simp)
    | some j =>
      have h : applyAct s (.start total) = s := by simp only [applyAct, hj]
      rw [h]; exact ⟨hj, hpc⟩
  | wake =>
    have h : applyAct s .wake = s := by
      simp only [applyAct, hpc]
    rw [h]; exact ⟨rfl, hpc⟩

theorem exited_foldl (acts : List Act) (s : SysState) (hs : Inv s)
    (hpc : s.pc = .exited) :
    (acts.foldl applyAct s).job = s.job := by
  induction acts generalizing s with
  | nil => rfl
  | cons a rest ih =>
    obtain ⟨h1, h2⟩ := exited_applyAct s a hs hpc
    rw [List.foldl_cons, ih (applyAct s a) (inv_applyAct s a hs) h2, h1]

/-- C1: invoked through the endpoint layer, every status read returns the
NotFound outcome (HTTP 404), every job listing is empty, and every cancel
returns 404, for both the training and the optimization routers — each
endpoint call builds a fresh service whose `active_jobs` registry is empty,
so no request can observe a job submitted by an earlier request. -/
theorem C1_endpoints_fresh_registry_not_found (id : String) :
    getTrainingStatusEndpoint id = .httpError 404 ∧
    listTrainingJobsEndpoint = [] ∧
    cancelTrainingEndpoint id = .httpError 404 ∧
    getOptimizationStatusEndpoint id = .httpError 404 ∧
    listOptimizationJobsEndpoint = [] ∧
    cancelOptimizationEndpoint id = .httpError 404 :=
  ⟨rfl, rfl, rfl, rfl, rfl, rfl⟩

/-- C2 counterexample: the claim says `cancel` leaves the job's `status`
field unchanged, setting only a separate flag.  On the concrete reachable
state with one running job, `cancel` returns `True` and the very `status`
field changes from `"running"` to `"cancelled"` — there is no separate
flag field at all. -/
theorem C2_cex_cancel_writes_status :
    (run [.start 5]).job.map OptJob.status = some .running ∧
    (cancelOp (run [.start 5])).2 = true ∧
    (cancelOp (run [.start 5])).1.job.map OptJob.status = some .cancelled := by
  decide

/-- C2 amended: the cancellation flag IS the `status` field: `cancel` sets
`status` to `"cancelled"` exactly when the job exists with status
`"running"`, and changes nothing else — every other field of the record,
the runner position, and the clock are untouched (and when it returns
`False` the whole state is unchanged, see C6). -/
theorem C2_cancel_writes_only_status (s : SysState) (j : OptJob)
    (hj : s.job = some j) :
    (cancelOp s).1.job =
      some (if j.status = .running then { j with status := .cancelled } else j) ∧
    (cancelOp s).1.pc = s.pc ∧
    (cancelOp s).1.clock = s.clock ∧
    (∀ j', (cancelOp s).1.job = some j' →
      j'.history = j.history ∧ j'.completionTime = j.completionTime ∧
      j'.progress = j.progress ∧ j'.bestScore = j.bestScore ∧
      j'.baselineScore = j.baselineScore ∧ j'.startTime = j.startTime ∧
      j'.totalIterations = j.totalIterations ∧ j'.errorMsg = j.errorMsg) := by
  by_cases hr : j.status = .running
  · have hc : cancelOp s =
        ({ s with job := some { j with status := .cancelled } }, true) := by
      simp only [cancelOp, hj, if_pos hr]
    rw [hc]
    refine ⟨by rw [if_pos hr], rfl, rfl, fun j' hj' => ?_⟩
    have h : j' = { j with status := .cancelled } := by simpa using hj'.symm
    subst h
    exact ⟨rfl, rfl, rfl, rfl, rfl, rfl, rfl, rfl⟩
  · have hc : cancelOp s = (s, false) := by
      simp only [cancelOp, hj, if_neg hr]
    rw [hc]
    refine ⟨by rw [if_neg hr]; exact hj, rfl, rfl, fun j' hj' => ?_⟩
    have h : j' = j := by rw [hj] at hj'; simpa using hj'.symm
    subst h
    exact ⟨rfl, rfl, rfl, rfl, rfl, rfl, rfl, rfl⟩

theorem C2_cancel_writes_only_status_witness :
    (cancelOp (run [.start 5])).1.job =
      some (if (initJob 0 5).status = .running
            then { initJob 0 5 with status := .cancelled } else initJob 0 5) :=
  (C2_cancel_writes_only_status (run [.start 5]) (initJob 0 5) rfl).1

/-- C3 counterexample: a job of one total step is cancelled while that step
is in flight; its status becomes `"cancelled"` (a terminal status), and the
very next runner step overwrites it with `"completed"` — a transition out
of a terminal status, which the claim says never occurs. -/
theorem C3_cex_terminal_status_overwritten :
    (run [.start 1, .cancel]).job.map OptJob.status = some .cancelled ∧
    Status.cancelled.isTerminal = true ∧
    (applyAct (run [.start 1, .cancel]) .wake).job.map OptJob.status =
      some .completed := by
  decide

/-- C3 amended: the registry transitions of a job record are only
Running→Completed, Running→Cancelled, Running→Failed (the claim's list,
noting that records enter the registry already Running and the `"failed"`
branch is unreachable with the simulated step executor) — plus the one
transition the counterexample forces: Cancelled→Completed, taken when the
cancellation arrives during the final step.  Completed and Failed are never
left. -/
theorem C3_status_transitions (s : SysState) (a : Act) (j j' : OptJob)
    (hR : Reachable s) (hj : s.job = some j)
    (hj' : (applyAct s a).job = some j') :
    j'.status = j.status ∨
    (j.status = .running ∧ j'.status = .completed) ∨
    (j.status = .running ∧ j'.status = .cancelled) ∨
    (j.status = .cancelled ∧ j'.status = .completed) := by
  have hs := inv_reachable hR
  obtain ⟨hnone, hsome⟩ := hs
  cases a with
  | tick d =>
    left
    have : s.job = some j' := hj'
    rw [hj] at this
    simp at this
    rw [this]
  | cancel =>
    by_cases hr : j.status = .running
    · have : (applyAct s .cancel).job = some { j with status := .cancelled } := by
        simp only [applyAct, cancelOp, hj, if_pos hr]
      rw [this] at hj'
      simp at hj'
      rw [← hj']
      exact Or.inr (Or.inr (Or.inl ⟨hr, rfl⟩))
    · have : (applyAct s .cancel).job = some j := by
        simp only [applyAct, cancelOp, hj, if_neg hr]
      rw [this] at hj'
      simp at hj'
      rw [← hj']
      exact Or.inl rfl
  | start total =>
    have : (applyAct s (.start total)).job = some j := by
      simp only [applyAct, hj]
    rw [this] at hj'
    simp at hj'
    rw [← hj']
    exact Or.inl rfl
  | wake =>
    cases hpc : s.pc with
    | notStarted => exact absurd hpc (hsome j hj).2.2.2.2.2.1
    | exited =>
      have : (applyAct s .wake).job = some j := by
        simp only [applyAct, hpc, hj]
      rw [this] at hj'
      simp at hj'
      rw [← hj']
      exact Or.inl rfl
    | sleeping k =>
      have heq : applyAct s .wake = wakeStep s k j := by
        simp only [applyAct, hpc, hj]
      obtain ⟨hlen, hk, hst⟩ := (hsome j hj).2.2.2.2.2.2.1 k hpc
      rw [heq] at hj'
      by_cases hdone : k + 1 = j.totalIterations
      · simp only [wakeStep] at hj'
        rw [if_pos hdone] at hj'
        simp at hj'
        rw [← hj']
        rcases hst with h | h
        · exact Or.inr (Or.inl ⟨h, rfl⟩)
        · exact Or.inr (Or.inr (Or.inr ⟨h, rfl⟩))
      · by_cases hcan : j.status = .cancelled
        · simp only [wakeStep] at hj'
          rw [if_neg hdone, if_pos hcan] at hj'
          simp at hj'
          rw [← hj']
          exact Or.inl rfl
        · simp only [wakeStep] at hj'
          rw [if_neg hdone, if_neg hcan] at hj'
          simp at hj'
          rw [← hj']
          exact Or.inl rfl

theorem C3_status_transitions_witness :
    (initJob 0 1).status = (initJob 0 1).status ∨
    ((initJob 0 1).status = .running ∧ (initJob 0 1).status = .completed) ∨
    ((initJob 0 1).status = .running ∧ (initJob 0 1).status = .cancelled) ∨
    ((initJob 0 1).status = .cancelled ∧ (initJob 0 1).status = .completed) :=
  C3_status_transitions (run [.start 1]) (.tick 0) (initJob 0 1) (initJob 0 1)
    ⟨[.start 1], rfl⟩ rfl rfl

/-- C4 counterexample: a job cancelled at a step boundary ends with the
terminal status `"cancelled"` yet its end timestamp (`completion_time`) is
never set — refuting "the end timestamp is set if and only if the status
is terminal". -/
theorem C4_cex_cancelled_without_end_timestamp :
    (run [.start 2, .cancel, .wake]).job.map
        (fun j => (j.status, j.status.isTerminal, j.completionTime)) =
      some (.cancelled, true, none) := by
  decide

/-- C4 amended: `completion_time` is set if and only if the status is
`"completed"` (jobs that end `"cancelled"` — or `"failed"` — never get an
end timestamp), and it is set exactly once: once present it never changes
under any further operation. -/
theorem C4_end_timestamp_iff_completed (s : SysState) (hR : Reachable s) :
    (∀ j, s.job = some j → (j.completionTime.isSome ↔ j.status = .completed)) ∧
    (∀ j t a, s.job = some j → j.completionTime = some t →
      ∀ j', (applyAct s a).job = some j' → j'.completionTime = some t) := by
  have hs := inv_reachable hR
  obtain ⟨hnone, hsome⟩ := hs
  refine ⟨fun j hj => (hsome j hj).2.2.2.1, fun j t a hj ht j' hj' => ?_⟩
  have hcomp : j.status = .completed := by
    rw [← (hsome j hj).2.2.2.1, ht]
    rfl
  have hpc : s.pc = .exited := by
    cases hpc : s.pc with
    | notStarted => exact absurd hpc (hsome j hj).2.2.2.2.2.1
    | exited => rfl
    | sleeping k =>
      rcases ((hsome j hj).2.2.2.2.2.2.1 k hpc).2.2 with h | h <;>
        rw [hcomp] at h <;> cases h
  have hfix := (exited_applyAct s a ⟨hnone, hsome⟩ hpc).1
  rw [hfix, hj] at hj'
  have h : j' = j := by simpa using hj'.symm
  rw [h, ht]

theorem C4_end_timestamp_iff_completed_witness :
    (initJob 0 2).completionTime.isSome ↔ (initJob 0 2).status = .completed :=
  (C4_end_timestamp_iff_completed (run [.start 2]) ⟨[.start 2], rfl⟩).1
    (initJob 0 2) rfl

/-- C5 counterexample: cancellation is requested while step 1 of 3 is in
flight; at the next boundary the runner stops with the job `"cancelled"`
and `current_step = len(history) = 1` — exactly as the claim describes —
but, refuting the claim's final conjunct, `completion_time` (ended_at) is
NOT set. -/
theorem C5_cex_no_end_timestamp_on_cancel :
    (run [.start 3, .cancel, .wake]).pc = .exited ∧
    (run [.start 3, .cancel, .wake]).job.map
        (fun j => (j.status, j.history.length, j.completionTime)) =
      some (.cancelled, 1, none) := by
  decide

/-- C5 amended: if the cancellation flag (the status, set to `"cancelled"`)
is set before the cancellation check of the next step, and that step is
not past the last one, then the runner stops at the boundary: the step
about to run never executes and does not count (`current_step`, i.e.
`len(history)`, stays at the number of steps already finished), the job
stays `"cancelled"` forever and no later operation changes the record —
but, contrary to the original claim, `ended_at` (`completion_time`) is
never set. -/
theorem C5_cancel_observed_at_boundary (s : SysState) (k : Nat) (j : OptJob)
    (hR : Reachable s) (hpc : s.pc = .sleeping k) (hj : s.job = some j)
    (hcan : j.status = .cancelled) (hlt : k + 1 < j.totalIterations) :
    ∃ j', (applyAct s .wake).job = some j' ∧
      (applyAct s .wake).pc = .exited ∧
      j'.status = .cancelled ∧
      j'.history.length = k + 1 ∧
      j'.completionTime = none ∧
      ∀ acts : List Act, (acts.foldl applyAct (applyAct s .wake)).job = some j' := by
  have hs := inv_reachable hR
  obtain ⟨hnone, hsome⟩ := hs
  obtain ⟨hlen, hk, _⟩ := (hsome j hj).2.2.2.2.2.2.1 k hpc
  have hctn : j.completionTime = none := by
    have hiff := (hsome j hj).2.2.2.1
    cases hc : j.completionTime with
    | none => rfl
    | some t =>
      have : j.status = .completed := by rw [← hiff, hc]; rfl
      rw [hcan] at this
      cases this
  have hne : k + 1 ≠ j.totalIterations := Nat.ne_of_lt hlt
  have heq : applyAct s .wake = wakeStep s k j := by
    simp only [applyAct, hpc, hj]
  rw [heq]
  simp only [wakeStep]
  rw [if_neg hne, if_pos hcan]
  refine ⟨_, rfl, rfl, hcan, by simp [hlen], hctn, fun acts => ?_⟩
  have hinv' : Inv (applyAct s .wake) := inv_applyAct s .wake ⟨hnone, hsome⟩
  rw [heq] at hinv'
  simp only [wakeStep] at hinv'
  rw [if_neg hne, if_pos hcan] at hinv'
  exact exited_foldl acts _ hinv' rfl

theorem C5_cancel_observed_at_boundary_witness :
    ∃ j', (applyAct (run [.start 3, .cancel]) .wake).job = some j' ∧
      (applyAct (run [.start 3, .cancel]) .wake).pc = .exited ∧
      j'.status = .cancelled ∧
      j'.history.length = 0 + 1 ∧
      j'.completionTime = none ∧
      ∀ acts : List Act,
        (acts.foldl applyAct (applyAct (run [.start 3, .cancel]) .wake)).job =
          some j' :=
  C5_cancel_observed_at_boundary (run [.start 3, .cancel]) 0
    { initJob 0 3 with status := .cancelled }
    ⟨[.start 3, .cancel], rfl⟩ rfl rfl rfl (by decide)

/-- C6: `cancel` returns `True` exactly when the job exists and its status
is not terminal (on reachable states a non-terminal job is exactly a
`"running"` one: records enter the registry running, and `"pending"` /
`"failed"` never occur); when it returns `False` the state is completely
unchanged; and cancelling a running job twice yields `True` then `False`. -/
theorem C6_cancel_result (s : SysState) (hR : Reachable s) :
    ((cancelOp s).2 = true ↔
      ∃ j, s.job = some j ∧ j.status.isTerminal = false) ∧
    ((cancelOp s).2 = false → (cancelOp s).1 = s) ∧
    (∀ j, s.job = some j → j.status = .running →
      (cancelOp s).2 = true ∧ (cancelOp (cancelOp s).1).2 = false) := by
  have hs := inv_reachable hR
  obtain ⟨hnone, hsome⟩ := hs
  cases hj : s.job with
  | none =>
    have hc : cancelOp s = (s, false) := by simp only [cancelOp, hj]
    rw [hc]
    refine ⟨⟨fun h => Bool.noConfusion h, ?_⟩, fun _ => rfl,
      fun j hj' => absurd hj' (by simp)⟩
    rintro ⟨j, hj', _⟩
    exact Option.noConfusion hj'
  | some j =>
    obtain ⟨hp, hf, _⟩ := hsome j hj
    by_cases hr : j.status = .running
    · have hc : cancelOp s =
          ({ s with job := some { j with status := .cancelled } }, true) := by
        simp only [cancelOp, hj, if_pos hr]
      rw [hc]
      exact ⟨⟨fun _ => ⟨j, rfl, by rw [hr]; rfl⟩, fun _ => rfl⟩,
        fun h => Bool.noConfusion h,
        fun j' hj' hr' => ⟨rfl, rfl⟩⟩
    · have hc : cancelOp s = (s, false) := by simp only [cancelOp, hj, if_neg hr]
      rw [hc]
      refine ⟨⟨fun h => Bool.noConfusion h, ?_⟩, fun _ => rfl,
        fun j' hj' hr' => ?_⟩
      · rintro ⟨j', hj', hterm⟩
        have h : j = j' := by simpa using hj'
        subst h
        cases hst : j.status with
        | pending => exact absurd hst hp
        | failed => exact absurd hst hf
        | running => exact absurd hst hr
        | completed => rw [hst] at hterm; exact absurd hterm (by decide)
        | cancelled => rw [hst] at hterm; exact absurd hterm (by decide)
      · have h : j = j' := by simpa using hj'
        subst h
        exact absurd hr' hr

theorem C6_cancel_result_witness :
    ((cancelOp (run [.start 2])).2 = true ↔
      ∃ j, (run [.start 2]).job = some j ∧ j.status.isTerminal = false) ∧
    ((cancelOp (run [.start 2])).2 = false →
      (cancelOp (run [.start 2])).1 = run [.start 2]) ∧
    (∀ j, (run [.start 2]).job = some j → j.status = .running →
      (cancelOp (run [.start 2])).2 = true ∧
      (cancelOp (cancelOp (run [.start 2])).1).2 = false) :=
  C6_cancel_result (run [.start 2]) ⟨[.start 2], rfl⟩

/-- C7: at every observation point, the history of a job carries iteration
indices exactly `1, 2, ..., len(history)` — strictly increasing with no
gaps — and the progress view's `current_step` (its `iteration` field) is
exactly `len(history)`. -/
theorem C7_history_indices (s : SysState) (hR : Reachable s) :
    (∀ j, s.job = some j →
      j.history.map HistoryEntry.iteration = List.range' 1 j.history.length) ∧
    (∀ j p, s.job = some j → getOptimizationProgress s.job = some p →
      p.iteration = j.history.length) := by
  have hs := inv_reachable hR
  obtain ⟨hnone, hsome⟩ := hs
  refine ⟨fun j hj => (hsome j hj).2.2.1, fun j p hj hp => ?_⟩
  rw [hj] at hp
  simp only [getOptimizationProgress] at hp
  cases hl : j.history.getLast? with
  | none => rw [hl] at hp; simp at hp; rw [← hp]
  | some e => rw [hl] at hp; simp at hp; rw [← hp]

theorem C7_history_indices_witness :
    (initJob 0 4).history.map HistoryEntry.iteration =
      List.range' 1 (initJob 0 4).history.length :=
  (C7_history_indices (run [.start 4]) ⟨[.start 4], rfl⟩).1 (initJob 0 4) rfl

/-- C8 counterexample: for the concrete completed one-step job, the result's
improvement field (`improvement_percentage`) is `80`, while the claim's
formula `(best − baseline) / baseline` gives `4/5` — the code multiplies
the spec's ratio by 100. -/
theorem C8_cex_improvement_is_percentage :
    (getOptimizationResults (run [.start 1, .wake]).job).map
        OptResult.improvementPercentage = some 80 ∧
    ((run [.start 1, .wake]).job.map
        (fun j => (j.bestScore - j.baselineScore) / j.baselineScore)) =
      some (4/5) ∧
    (80 : ℚ) ≠ 4/5 := by
  refine ⟨?_, ?_, by norm_num⟩ <;>
    norm_num [run, applyAct, wakeStep, initJob, initState, sleepDuration,
      getOptimizationResults]

/-- C8 amended: `get_optimization_results` returns `None` for an unknown id
or any job not in `"completed"` status; for a completed job it returns a
populated result whose `improvement_percentage` is
`(best − baseline) / baseline × 100` (the claim's ratio, times 100),
whose duration is `completion_time − start_time`, whose
`iterations_completed` equals `len(history)` (= `total_steps`), and which
echoes the full history. -/
theorem C8_results (s : SysState) (hR : Reachable s) :
    (getOptimizationResults none = none) ∧
    (∀ j, s.job = some j → j.status ≠ .completed →
      getOptimizationResults s.job = none) ∧
    (∀ j, s.job = some j → j.status = .completed →
      ∃ r t, j.completionTime = some t ∧
        getOptimizationResults s.job = some r ∧
        r.improvementPercentage =
          (j.bestScore - j.baselineScore) / j.baselineScore * 100 ∧
        r.optimizationTime = t - j.startTime ∧
        r.iterationsCompleted = j.history.length ∧
        j.history.length = j.totalIterations ∧
        r.history = j.history ∧
        r.finalScore = j.bestScore ∧
        r.baselineScore = j.baselineScore) := by
  have hs := inv_reachable hR
  obtain ⟨hnone, hsome⟩ := hs
  refine ⟨rfl, fun j hj hnc => ?_, fun j hj hc => ?_⟩
  · rw [hj]
    simp only [getOptimizationResults]
    rw [if_neg hnc]
  · obtain ⟨_, _, _, hiff, hlen, _⟩ := hsome j hj
    have hsome' : j.completionTime.isSome := by rw [hiff]; exact hc
    obtain ⟨t, ht⟩ := Option.isSome_iff_exists.mp hsome'
    have hres : getOptimizationResults s.job =
        some { finalScore := j.bestScore
               baselineScore := j.baselineScore
               improvementPercentage :=
                 (j.bestScore - j.baselineScore) / j.baselineScore * 100
               optimizationTime := (j.completionTime.getD j.startTime) - j.startTime
               iterationsCompleted := j.history.length
               history := j.history } := by
      rw [hj]
      simp only [getOptimizationResults]
      rw [if_pos hc]
    refine ⟨_, t, ht, hres, rfl, ?_, rfl, hlen hc, rfl, rfl, rfl⟩
    simp [ht]

theorem C8_results_witness :
    getOptimizationResults (run [.start 2]).job = none :=
  (C8_results (run [.start 2]) ⟨[.start 2], rfl⟩).2.1 (initJob 0 2) rfl
    (by decide)

/-- C9: a submission whose total step count is not positive (`epochs` /
`max_iterations` less than 1) fails the declared `ge=1` field constraint,
so the route rejects it synchronously with a validation error (HTTP 422),
the handler never runs, and neither a job record nor a background task is
created — the returned application state is exactly the old one. -/
theorem C9_nonpositive_steps_rejected :
    (∀ (app : TrainingAppState) (r : TrainingRequestIn) (id : String),
      r.epochs ≤ 0 → startTrainingRoute app r id = (.httpError 422, app)) ∧
    (∀ (app : OptimizationAppState) (r : OptimizationRequestIn) (id : String),
      r.maxIterations ≤ 0 →
        startOptimizationRoute app r id = (.httpError 422, app)) := by
  constructor
  · intro app r id h
    have h1 : decide (1 ≤ r.epochs) = false := by
      simp only [decide_eq_false_iff_not]
      omega
    simp [startTrainingRoute, TrainingRequestIn.validatedOk, h1]
  · intro app r id h
    have h1 : decide (1 ≤ r.maxIterations) = false := by
      simp only [decide_eq_false_iff_not]
      omega
    simp [startOptimizationRoute, OptimizationRequestIn.validatedOk, h1]

theorem C9_nonpositive_steps_rejected_witness :
    startTrainingRoute { activeJobs := [], scheduledTasks := [] }
        { epochs := 0 } jobIdA =
      (.httpError 422, { activeJobs := [], scheduledTasks := [] }) ∧
    startOptimizationRoute { activeJobs := [], scheduledTasks := [] }
        { maxIterations := 0 } jobIdA =
      (.httpError 422, { activeJobs := [], scheduledTasks := [] }) :=
  ⟨C9_nonpositive_steps_rejected.1 _ _ _ (by decide),
   C9_nonpositive_steps_rejected.2 _ _ _ (by decide)⟩

/-- C10 counterexample: submitting the default (valid) training request
yields a response whose body says `status = "pending"`, but an immediate
`GetProgress` on the returned job id does NOT show a Pending record with
`current_step = 0` — it finds no record at all (`None` / NotFound),
because the registry record is only created when the background task
starts running. -/
theorem C10_cex_immediate_progress_is_not_found :
    (startTrainingRoute { activeJobs := [], scheduledTasks := [] } {} jobIdB).1 =
      .ok { trainingId := jobIdB, status := .pending, totalEpochs := 10 } ∧
    getTrainingProgress
      (startTrainingRoute { activeJobs := [], scheduledTasks := [] }
        {} jobIdB).2.activeJobs jobIdB = none ∧
    ¬ ∃ p, getTrainingProgress
        (startTrainingRoute { activeJobs := [], scheduledTasks := [] }
          {} jobIdB).2.activeJobs jobIdB = some p ∧
        p.status = .pending ∧ p.epoch = 0 := by
  have hv : ({} : TrainingRequestIn).validatedOk = true := by
    norm_num [TrainingRequestIn.validatedOk]
  have hroute : startTrainingRoute { activeJobs := [], scheduledTasks := [] }
      {} jobIdB =
      (.ok { trainingId := jobIdB, status := .pending, totalEpochs := 10 },
       { activeJobs := []
         scheduledTasks := [(jobIdB, ({} : TrainingRequestIn))] }) := by
    simp only [startTrainingRoute, hv]
    rfl
  have hprog : getTrainingProgress
      (startTrainingRoute { activeJobs := [], scheduledTasks := [] }
        {} jobIdB).2.activeJobs jobIdB = none := by
    rw [hroute]
    rfl
  refine ⟨by rw [hroute], hprog, ?_⟩
  rintro ⟨p, hp, _⟩
  rw [hprog] at hp
  exact Option.noConfusion hp

/-- C10 amended: a valid submission returns the fresh job id in a response
whose body reports `status = "pending"` and echoes `total_epochs`, and the
background task is scheduled — but the registry is not touched, so an
immediate `GetProgress` on the new id returns NotFound (`None`), not a
Pending snapshot; the Pending record the claim describes never exists in
the registry. -/
theorem C10_submit_then_immediate_progress (app : TrainingAppState)
    (r : TrainingRequestIn) (id : String) (hv : r.validatedOk = true)
    (hfresh : app.activeJobs.lookup id = none) :
    (startTrainingRoute app r id).1 =
      .ok { trainingId := id, status := .pending, totalEpochs := r.epochs } ∧
    (startTrainingRoute app r id).2.activeJobs = app.activeJobs ∧
    (startTrainingRoute app r id).2.scheduledTasks =
      app.scheduledTasks ++ [(id, r)] ∧
    getTrainingProgress (startTrainingRoute app r id).2.activeJobs id = none := by
  refine ⟨?_, ?_, ?_, ?_⟩ <;>
    simp [startTrainingRoute, hv, getTrainingProgress, hfresh]

theorem C10_submit_then_immediate_progress_witness :
    (startTrainingRoute { activeJobs := [], scheduledTasks := [] }
        {} jobIdA).1 =
      .ok { trainingId := jobIdA, status := .pending,
            totalEpochs := ({} : TrainingRequestIn).epochs } ∧
    (startTrainingRoute { activeJobs := [], scheduledTasks := [] }
        {} jobIdA).2.activeJobs = [] ∧
    (startTrainingRoute { activeJobs := [], scheduledTasks := [] }
        {} jobIdA).2.scheduledTasks = [] ++ [(jobIdA, ({} : TrainingRequestIn))] ∧
    getTrainingProgress
      (startTrainingRoute { activeJobs := [], scheduledTasks := [] }
        {} jobIdA).2.activeJobs jobIdA = none :=
  C10_submit_then_immediate_progress { activeJobs := [], scheduledTasks := [] }
    {} jobIdA (by norm_num [TrainingRequestIn.validatedOk]) rfl

end VibeJobs
